import Mathlib

/-
Verification of pw_preprocessor/public/pw_preprocessor/macro_arg_count.h.

The header defines compile-time text-substitution operations:
  PW_ARG_COUNT, PW_HAS_ARGS, PW_HAS_NO_ARGS, PW_COMMA_ARGS
together with the internal helpers
  _PW_ARG_COUNT_IMPL, _PW_HAS_COMMA, _PW_HAS_NO_ARGS, _PW_PASTE_RESULTS,
  _PW_HAS_COMMA_CASE_0001, _PW_MAKE_COMMA_IF_CALLED,
  _PW_COMMA_ARGS, _PW_COMMA_ARGS_X, _PW_COMMA_ARGS_0, _PW_COMMA_ARGS_1.

We embed the preprocessor fragment shallowly: preprocessing tokens are an
inductive type, a variadic call site is the token sequence supplied for
__VA_ARGS__, argument division at top-level commas is an explicit function,
and the single left-to-right expansion pass that the preprocessor performs
on a macro argument is a fuel-bounded function over an environment of
function-like user definitions.  Each macro of the header becomes a Lean
function whose body composes the models of the macros its replacement list
mentions, in the same way the replacement list composes them.  Lean does
not accept identifiers that begin with an underscore in all positions, so
the internal helpers drop the leading underscore marker and are renamed as
follows: _PW_ARG_COUNT_IMPL is argCountImpl, _PW_HAS_COMMA is pwHasComma,
_PW_HAS_NO_ARGS is hasNoArgsImpl, _PW_PASTE_RESULTS is pasteResults, and
_PW_COMMA_ARGS together with _PW_COMMA_ARGS_X, _PW_COMMA_ARGS_0 and
_PW_COMMA_ARGS_1 is commaArgsSel.
-/

namespace MacroArgCount

/-- Preprocessing tokens.  `ident` is an ordinary identifier or other
single token, `num` is an integer literal (the header uses the literals
0 to 64), `comma`, `lp`, `rp` are the punctuators, `mcic` is the token
`_PW_MAKE_COMMA_IF_CALLED` (the marker helper defined by the header as a
function-like macro expanding to a comma), and `mac i` is the name of a
user function-like macro whose replacement list is entry `i` of the
environment. -/
inductive Tok where
  | ident : String → Tok
  | num : Nat → Tok
  | comma : Tok
  | lp : Tok
  | rp : Tok
  | mcic : Tok
  | mac : Nat → Tok
deriving DecidableEq

/-- Spelling of a token, as used when tokens are pasted with the ## operator. -/
def spell : Tok → String
  | Tok.ident s => s
  | Tok.num n => Nat.repr n
  | Tok.comma => ","
  | Tok.lp => "("
  | Tok.rp => ")"
  | Tok.mcic => "_PW_MAKE_COMMA_IF_CALLED"
  | Tok.mac i => "PW_USER_FUNCTION_LIKE_" ++ Nat.repr i

/-- Spelling of a token group (concatenation of the spellings). -/
def spellGroup (g : List Tok) : String :=
  String.join (g.map spell)

/-- Tokens that are plain text: not the marker helper and not the name of a
user function-like macro.  A sequence of plain tokens is inert under the
expansion pass. -/
def plainTok : Tok → Bool
  | Tok.ident _ => true
  | Tok.num _ => true
  | Tok.comma => true
  | Tok.lp => true
  | Tok.rp => true
  | Tok.mcic => false
  | Tok.mac _ => false

/-- Token sequence consisting only of plain tokens. -/
def Plain (ts : List Tok) : Prop := ts.all plainTok = true

/-- Parenthesis scan: starting at nesting depth `d`, returns the final depth
if no closing parenthesis ever appears at depth 0, and `none` otherwise. -/
def scanDepth : List Tok → Nat → Option Nat
  | [], d => some d
  | Tok.lp :: ts, d => scanDepth ts (d + 1)
  | Tok.rp :: ts, d =>
      match d with
      | 0 => none
      | e + 1 => scanDepth ts e
  | _ :: ts, d => scanDepth ts d

/-- Token sequence with balanced parentheses. -/
def Balanced (ts : List Tok) : Prop := scanDepth ts 0 = some 0

/-- Number of top-level commas: commas not nested inside an inner
parenthesis pair, starting at nesting depth `d`. -/
def topCommasAux : List Tok → Nat → Nat
  | [], _ => 0
  | Tok.comma :: ts, 0 => topCommasAux ts 0 + 1
  | Tok.comma :: ts, d + 1 => topCommasAux ts (d + 1)
  | Tok.lp :: ts, d => topCommasAux ts (d + 1)
  | Tok.rp :: ts, d => topCommasAux ts (d - 1)
  | _ :: ts, d => topCommasAux ts d

/-- Argument division: split a token sequence at its top-level commas, as
the preprocessor divides the argument list of a function-like macro
invocation.  `d` is the current nesting depth and `cur` the reversed
current group. -/
def splitAux : List Tok → Nat → List Tok → List (List Tok)
  | [], _, cur => [cur.reverse]
  | Tok.comma :: ts, 0, cur => cur.reverse :: splitAux ts 0 []
  | Tok.comma :: ts, d + 1, cur => splitAux ts (d + 1) (Tok.comma :: cur)
  | Tok.lp :: ts, d, cur => splitAux ts (d + 1) (Tok.lp :: cur)
  | Tok.rp :: ts, d, cur => splitAux ts (d - 1) (Tok.rp :: cur)
  | t :: ts, d, cur => splitAux ts d (t :: cur)

/-- Top-level argument division of a token sequence.  An empty sequence
divides into one empty group, which is how the preprocessor sees a
variadic macro invoked with no arguments. -/
def splitTopLevel (ts : List Tok) : List (List Tok) :=
  splitAux ts 0 []

/-- Skip the arguments of a function-like macro invocation: consume tokens
until the parenthesis that closes the invocation (the opening parenthesis
has already been consumed; `d` counts extra open inner parentheses) and
return the remaining tokens. -/
def skipParens : Nat → List Tok → Option (List Tok)
  | _, [] => none
  | d, Tok.rp :: ts =>
      match d with
      | 0 => some ts
      | e + 1 => skipParens e ts
  | d, Tok.lp :: ts => skipParens (d + 1) ts
  | d, _ :: ts => skipParens d ts

/-- Environment of user function-like macro definitions: entry `i` is the
replacement list of the macro named `Tok.mac i`.  The replacement ignores
the invocation arguments, which suffices for the invocations the header
performs (it only ever appends an empty parenthesis pair). -/
abbrev Env : Type := List (List Tok)

/-- Total size of an environment, used to bound the expansion fuel. -/
def envTotal (env : Env) : Nat :=
  (List.map List.length env).sum

/-- Single left-to-right expansion scan, as the preprocessor performs on a
macro argument before substitution.  A function-like macro name followed
by an opening parenthesis is invoked: `mcic` consumes its invocation and
leaves one comma (the header defines _PW_MAKE_COMMA_IF_CALLED(...) as a
comma), and `mac i` consumes its invocation and is replaced by its
replacement list, which is rescanned together with the remaining tokens.
A function-like macro name not followed by an opening parenthesis is left
alone and is not reconsidered.  `fuel` bounds the work. -/
def expandFuel (env : Env) : Nat → List Tok → List Tok
  | 0, ts => ts
  | _ + 1, [] => []
  | f + 1, Tok.mcic :: Tok.lp :: ts =>
      match skipParens 0 ts with
      | some rest => Tok.comma :: expandFuel env f rest
      | none => Tok.mcic :: expandFuel env f (Tok.lp :: ts)
  | f + 1, Tok.mac i :: Tok.lp :: ts =>
      match skipParens 0 ts with
      | some rest => expandFuel env f (List.getD env i [] ++ rest)
      | none => Tok.mac i :: expandFuel env f (Tok.lp :: ts)
  | f + 1, t :: ts => t :: expandFuel env f ts

/-- Fuel that suffices for the expansions the header performs. -/
def expFuel (env : Env) (ts : List Tok) : Nat :=
  ts.length + envTotal env + 2

/-- Expansion pass over a macro argument. -/
def expand (env : Env) (ts : List Tok) : List Tok :=
  expandFuel env (expFuel env ts) ts

/-- Model of _PW_ARG_COUNT_IMPL: of its 65 positional parameters a64 .. a01
and count, it expands to `count`, the 65th argument group (index 64). -/
def argCountImpl (args : List (List Tok)) : List Tok :=
  List.getD args 64 []

/-- Sentinel argument list of _PW_HAS_COMMA: 63 literal 1 tokens followed
by one literal 0 token. -/
def onesSentinels : List (List Tok) :=
  List.replicate 63 [Tok.num 1] ++ [[Tok.num 0]]

/-- Model of _PW_HAS_COMMA: append the input to the sentinel list of 63
literal 1 groups and one literal 0 group, and read the fixed positional
slot selected by _PW_ARG_COUNT_IMPL.  The argument is expanded once, as
the preprocessor expands macro arguments before substitution. -/
def pwHasComma (env : Env) (ts : List Tok) : List Tok :=
  argCountImpl (splitTopLevel (expand env ts) ++ onesSentinels)

/-- Model of _PW_PASTE_RESULTS: paste the spellings of the four probe
results onto _PW_HAS_COMMA_CASE_.  The header registers exactly the case
_PW_HAS_COMMA_CASE_0001 as a macro expanding to a comma; every other
pasted spelling is an unregistered single identifier and stays as it is. -/
def pasteResults (g1 g2 g3 g4 : List Tok) : List Tok :=
  let s := spellGroup g1 ++ spellGroup g2 ++ spellGroup g3 ++ spellGroup g4
  if s = "0001" then [Tok.comma]
  else [Tok.ident ("_PW_HAS_COMMA_CASE_" ++ s)]

/-- Model of _PW_HAS_NO_ARGS: re-test the pasted lookup result with the
comma presence test. -/
def hasNoArgsImpl (env : Env) (g1 g2 g3 g4 : List Tok) : List Tok :=
  pwHasComma env (pasteResults g1 g2 g3 g4)

/-- First probe of PW_HAS_NO_ARGS: comma test of the raw input. -/
def probe1 (env : Env) (e : List Tok) : List Tok :=
  pwHasComma env e

/-- Second probe of PW_HAS_NO_ARGS: comma test of the input prefixed with
the marker token _PW_MAKE_COMMA_IF_CALLED. -/
def probe2 (env : Env) (e : List Tok) : List Tok :=
  pwHasComma env (Tok.mcic :: e)

/-- Third probe of PW_HAS_NO_ARGS: comma test of the input followed by an
empty parenthesis pair. -/
def probe3 (env : Env) (e : List Tok) : List Tok :=
  pwHasComma env (e ++ [Tok.lp, Tok.rp])

/-- Fourth probe of PW_HAS_NO_ARGS: comma test of the marker-prefixed
input followed by an empty parenthesis pair. -/
def probe4 (env : Env) (e : List Tok) : List Tok :=
  pwHasComma env (Tok.mcic :: (e ++ [Tok.lp, Tok.rp]))

/-- Model of PW_HAS_NO_ARGS: run the four comma probes over the four
transformations of the (once expanded) input and look the 4-bit pattern up
through _PW_HAS_NO_ARGS. -/
def PW_HAS_NO_ARGS (env : Env) (ts : List Tok) : List Tok :=
  hasNoArgsImpl env
    (probe1 env (expand env ts)) (probe2 env (expand env ts))
    (probe3 env (expand env ts)) (probe4 env (expand env ts))

/-- Modelled from the spec: the boolean negation collaborator PW_NOT lives
in pw_preprocessor/boolean.h, which is not part of the sources; the spec
gives its contract as negate(0) = 1, negate(1) = 0, undefined for any
other input.  The undefined branch is modelled as an unregistered
identifier token. -/
def PW_NOT (g : List Tok) : List Tok :=
  if g = [Tok.num 0] then [Tok.num 1]
  else if g = [Tok.num 1] then [Tok.num 0]
  else [Tok.ident "_PW_NOT_UNDEFINED"]

/-- Model of PW_HAS_ARGS: the negation of PW_HAS_NO_ARGS. -/
def PW_HAS_ARGS (env : Env) (ts : List Tok) : List Tok :=
  PW_NOT (PW_HAS_NO_ARGS env ts)

/-- Sentinel argument list of PW_ARG_COUNT: the descending literals
64, 63, ..., 2. -/
def countdown : List (List Tok) :=
  List.map (fun j => [Tok.num (64 - j)]) (List.range 63)

/-- Model of PW_ARG_COUNT: append the descending sentinel list 64 .. 2 and
the PW_HAS_ARGS result of the same input as the final slot, and read the
fixed positional slot selected by _PW_ARG_COUNT_IMPL.  The variadic input
is expanded once, as the preprocessor expands macro arguments. -/
def PW_ARG_COUNT (env : Env) (ts : List Tok) : List Tok :=
  argCountImpl
    (splitTopLevel (expand env ts) ++ countdown ++ [PW_HAS_ARGS env (expand env ts)])

/-- Model of _PW_COMMA_ARGS together with _PW_COMMA_ARGS_X and the two
dispatch cases: the has-args group is pasted onto _PW_COMMA_ARGS_, the 0
case expands to nothing and the 1 case expands to a comma followed by the
variadic tail; any other pasted spelling is an unregistered identifier
applied to the tail. -/
def commaArgsSel (g : List Tok) (ts : List Tok) : List Tok :=
  if spellGroup g = "0" then []
  else if spellGroup g = "1" then Tok.comma :: ts
  else Tok.ident ("_PW_COMMA_ARGS_" ++ spellGroup g) :: Tok.lp :: (ts ++ [Tok.rp])

/-- Model of PW_COMMA_ARGS: dispatch on PW_HAS_ARGS of the variadic tail. -/
def PW_COMMA_ARGS (env : Env) (ts : List Tok) : List Tok :=
  commaArgsSel (PW_HAS_ARGS env (expand env ts)) (expand env ts)

/-- Well-formed environment: every replacement list is plain text and
divides into at most 64 top-level groups. -/
def EnvOk (env : Env) : Prop :=
  ∀ body ∈ env, (List.all body plainTok = true) ∧ (splitTopLevel body).length ≤ 64

/-! ### Basic lemmas about the expansion pass -/

lemma expandFuel_nil (env : Env) (f : Nat) : expandFuel env f [] = [] := by
  cases f <;> rfl

lemma plain_iff {ts : List Tok} : Plain ts ↔ ∀ t ∈ ts, plainTok t = true := by
  simp [Plain]

lemma plain_cons {t : Tok} {ts : List Tok} :
    Plain (t :: ts) ↔ plainTok t = true ∧ Plain ts := by
  simp [Plain]

lemma plain_append {ts us : List Tok} :
    Plain (ts ++ us) ↔ Plain ts ∧ Plain us := by
  simp [Plain]

lemma expandFuel_plain (env : Env) {f : Nat} {ts : List Tok}
    (hp : Plain ts) (hf : ts.length ≤ f) : expandFuel env f ts = ts := by
  induction f generalizing ts with
  | zero => rfl
  | succ g ih =>
    cases ts with
    | nil => rfl
    | cons t ts =>
      have hpt := (plain_cons.mp hp).1
      have hpts := (plain_cons.mp hp).2
      have hlen : ts.length ≤ g := by
        simpa using Nat.le_of_succ_le_succ (by simpa using hf)
      cases t with
      | ident s => simpa [expandFuel] using ih hpts hlen
      | num n => simpa [expandFuel] using ih hpts hlen
      | comma => simpa [expandFuel] using ih hpts hlen
      | lp => simpa [expandFuel] using ih hpts hlen
      | rp => simpa [expandFuel] using ih hpts hlen
      | mcic => simp [plainTok] at hpt
      | mac i => simp [plainTok] at hpt

lemma expand_plain (env : Env) {ts : List Tok} (hp : Plain ts) :
    expand env ts = ts :=
  expandFuel_plain env hp (by unfold expFuel; omega)

lemma expandFuel_single (env : Env) {f : Nat} (t : Tok) (hf : 1 ≤ f) :
    expandFuel env f [t] = [t] := by
  obtain ⟨g, rfl⟩ : ∃ g, f = g + 1 := ⟨f - 1, by omega⟩
  cases t <;> simp [expandFuel, expandFuel_nil]

lemma expandFuel_mcic_nonlp (env : Env) {f : Nat} {t : Tok} (ts : List Tok)
    (ht : t ≠ Tok.lp) (hf : 1 ≤ f) :
    expandFuel env f (Tok.mcic :: t :: ts) =
      Tok.mcic :: expandFuel env (f - 1) (t :: ts) := by
  obtain ⟨g, rfl⟩ : ∃ g, f = g + 1 := ⟨f - 1, by omega⟩
  cases t <;> simp_all [expandFuel]

lemma expandFuel_mcic_call (env : Env) {f : Nat} {rest after : List Tok}
    (hskip : skipParens 0 rest = some after) (hp : Plain after)
    (hf : after.length + 1 ≤ f) :
    expandFuel env f (Tok.mcic :: Tok.lp :: rest) = Tok.comma :: after := by
  obtain ⟨g, rfl⟩ : ∃ g, f = g + 1 := ⟨f - 1, by omega⟩
  simp only [expandFuel, hskip]
  rw [expandFuel_plain env hp (by omega)]

lemma expandFuel_mac_nonlp (env : Env) {f : Nat} {t : Tok} (i : Nat) (ts : List Tok)
    (ht : t ≠ Tok.lp) (hf : 1 ≤ f) :
    expandFuel env f (Tok.mac i :: t :: ts) =
      Tok.mac i :: expandFuel env (f - 1) (t :: ts) := by
  obtain ⟨g, rfl⟩ : ∃ g, f = g + 1 := ⟨f - 1, by omega⟩
  cases t <;> simp_all [expandFuel]

lemma expandFuel_mac_call (env : Env) {f : Nat} {ts after : List Tok} (i : Nat)
    (hskip : skipParens 0 ts = some after) (hf : 1 ≤ f) :
    expandFuel env f (Tok.mac i :: Tok.lp :: ts) =
      expandFuel env (f - 1) (List.getD env i [] ++ after) := by
  obtain ⟨g, rfl⟩ : ∃ g, f = g + 1 := ⟨f - 1, by omega⟩
  simp only [expandFuel, hskip]
  norm_num

/-! ### Lemmas about skipParens, the depth scan and top-level commas -/

lemma skipParens_sublist {d : Nat} {ts after : List Tok}
    (h : skipParens d ts = some after) : after.Sublist ts := by
  induction ts generalizing d with
  | nil => simp [skipParens] at h
  | cons t ts ih =>
    cases t with
    | rp =>
      cases d with
      | zero =>
        simp [skipParens] at h
        exact h ▸ List.sublist_cons_self _ _
      | succ e => exact ((ih (d := e)) (by simpa [skipParens] using h)).cons _
    | lp => exact ((ih (d := d + 1)) (by simpa [skipParens] using h)).cons _
    | ident s => exact ((ih (d := d)) (by simpa [skipParens] using h)).cons _
    | num n => exact ((ih (d := d)) (by simpa [skipParens] using h)).cons _
    | comma => exact ((ih (d := d)) (by simpa [skipParens] using h)).cons _
    | mcic => exact ((ih (d := d)) (by simpa [skipParens] using h)).cons _
    | mac i => exact ((ih (d := d)) (by simpa [skipParens] using h)).cons _

lemma skipParens_topCommas {d : Nat} {ts after : List Tok}
    (h : skipParens d ts = some after) :
    topCommasAux ts (d + 1) = topCommasAux after 0 := by
  induction ts generalizing d with
  | nil => simp [skipParens] at h
  | cons t ts ih =>
    cases t with
    | rp =>
      cases d with
      | zero =>
        simp [skipParens] at h
        simp [topCommasAux, h]
      | succ e =>
        simpa [topCommasAux] using ih (d := e) (by simpa [skipParens] using h)
    | lp =>
      simpa [topCommasAux] using ih (d := d + 1) (by simpa [skipParens] using h)
    | ident s =>
      simpa [topCommasAux] using ih (d := d) (by simpa [skipParens] using h)
    | num n =>
      simpa [topCommasAux] using ih (d := d) (by simpa [skipParens] using h)
    | comma =>
      simpa [topCommasAux] using ih (d := d) (by simpa [skipParens] using h)
    | mcic =>
      simpa [topCommasAux] using ih (d := d) (by simpa [skipParens] using h)
    | mac i =>
      simpa [topCommasAux] using ih (d := d) (by simpa [skipParens] using h)

lemma skipParens_exists {ts : List Tok} {d : Nat}
    (h : scanDepth ts (d + 1) = some 0) :
    ∃ after, skipParens d ts = some after ∧ scanDepth after 0 = some 0 := by
  induction ts generalizing d with
  | nil => simp [scanDepth] at h
  | cons t ts ih =>
    cases t with
    | rp =>
      cases d with
      | zero => exact ⟨ts, by simp [skipParens], by simpa [scanDepth] using h⟩
      | succ e =>
        obtain ⟨after, h1, h2⟩ := ih (d := e) (by simpa [scanDepth] using h)
        exact ⟨after, by simpa [skipParens] using h1, h2⟩
    | lp =>
      obtain ⟨after, h1, h2⟩ := ih (d := d + 1) (by simpa [scanDepth] using h)
      exact ⟨after, by simpa [skipParens] using h1, h2⟩
    | ident s =>
      obtain ⟨after, h1, h2⟩ := ih (d := d) (by simpa [scanDepth] using h)
      exact ⟨after, by simpa [skipParens] using h1, h2⟩
    | num n =>
      obtain ⟨after, h1, h2⟩ := ih (d := d) (by simpa [scanDepth] using h)
      exact ⟨after, by simpa [skipParens] using h1, h2⟩
    | comma =>
      obtain ⟨after, h1, h2⟩ := ih (d := d) (by simpa [scanDepth] using h)
      exact ⟨after, by simpa [skipParens] using h1, h2⟩
    | mcic =>
      obtain ⟨after, h1, h2⟩ := ih (d := d) (by simpa [scanDepth] using h)
      exact ⟨after, by simpa [skipParens] using h1, h2⟩
    | mac i =>
      obtain ⟨after, h1, h2⟩ := ih (d := d) (by simpa [scanDepth] using h)
      exact ⟨after, by simpa [skipParens] using h1, h2⟩

lemma skipParens_append {d : Nat} {ts after : List Tok}
    (h : skipParens d ts = some after) (us : List Tok) :
    skipParens d (ts ++ us) = some (after ++ us) := by
  induction ts generalizing d with
  | nil => simp [skipParens] at h
  | cons t ts ih =>
    cases t with
    | rp =>
      cases d with
      | zero =>
        simp [skipParens] at h
        simp [skipParens, h]
      | succ e =>
        simpa [skipParens] using ih (d := e) (by simpa [skipParens] using h)
    | lp =>
      simpa [skipParens] using ih (d := d + 1) (by simpa [skipParens] using h)
    | ident s =>
      simpa [skipParens] using ih (d := d) (by simpa [skipParens] using h)
    | num n =>
      simpa [skipParens] using ih (d := d) (by simpa [skipParens] using h)
    | comma =>
      simpa [skipParens] using ih (d := d) (by simpa [skipParens] using h)
    | mcic =>
      simpa [skipParens] using ih (d := d) (by simpa [skipParens] using h)
    | mac i =>
      simpa [skipParens] using ih (d := d) (by simpa [skipParens] using h)

lemma topCommasAux_append {ts : List Tok} {d e : Nat}
    (h : scanDepth ts d = some e) (us : List Tok) :
    topCommasAux (ts ++ us) d = topCommasAux ts d + topCommasAux us e := by
  induction ts generalizing d with
  | nil =>
    simp [scanDepth] at h
    simp [topCommasAux, h]
  | cons t ts ih =>
    cases t with
    | rp =>
      cases d with
      | zero => simp [scanDepth] at h
      | succ f =>
        have := ih (d := f) (by simpa [scanDepth] using h)
        simpa [topCommasAux] using this
    | lp =>
      have := ih (d := d + 1) (by simpa [scanDepth] using h)
      simpa [topCommasAux] using this
    | comma =>
      cases d with
      | zero =>
        have := ih (d := 0) (by simpa [scanDepth] using h)
        simp [topCommasAux, this]
        omega
      | succ f =>
        have := ih (d := f + 1) (by simpa [scanDepth] using h)
        simpa [topCommasAux] using this
    | ident s =>
      have := ih (d := d) (by simpa [scanDepth] using h)
      simpa [topCommasAux] using this
    | num n =>
      have := ih (d := d) (by simpa [scanDepth] using h)
      simpa [topCommasAux] using this
    | mcic =>
      have := ih (d := d) (by simpa [scanDepth] using h)
      simpa [topCommasAux] using this
    | mac i =>
      have := ih (d := d) (by simpa [scanDepth] using h)
      simpa [topCommasAux] using this

lemma splitAux_length (ts : List Tok) (d : Nat) (cur : List Tok) :
    (splitAux ts d cur).length = topCommasAux ts d + 1 := by
  induction ts generalizing d cur with
  | nil => simp [splitAux, topCommasAux]
  | cons t ts ih =>
    cases t with
    | comma =>
      cases d with
      | zero => simp [splitAux, topCommasAux, ih]
      | succ e => simp [splitAux, topCommasAux, ih]
    | lp => simp [splitAux, topCommasAux, ih]
    | rp => simp [splitAux, topCommasAux, ih]
    | ident s => simp [splitAux, topCommasAux, ih]
    | num n => simp [splitAux, topCommasAux, ih]
    | mcic => simp [splitAux, topCommasAux, ih]
    | mac i => simp [splitAux, topCommasAux, ih]

lemma splitTopLevel_length (ts : List Tok) :
    (splitTopLevel ts).length = topCommasAux ts 0 + 1 :=
  splitAux_length ts 0 []

/-! ### Positional selection over the sentinel lists -/

lemma onesSentinels_length : onesSentinels.length = 64 := by
  simp [onesSentinels]

lemma countdown_length : countdown.length = 63 := by
  simp [countdown]

lemma onesSentinels_getD {j : Nat} (h : j ≤ 62) :
    List.getD onesSentinels j [] = [Tok.num 1] := by
  unfold onesSentinels
  rw [List.getD_append _ _ _ _ (by simp; omega)]
  rw [List.getD_eq_getElem _ _ (by simp; omega)]
  exact List.getElem_replicate ..

lemma countdown_getD {j : Nat} (h : j ≤ 62) :
    List.getD countdown j [] = [Tok.num (64 - j)] := by
  unfold countdown
  rw [List.getD_eq_getElem _ _ (by simp; omega)]
  simp

lemma argCountImpl_ones_one {L : List (List Tok)} (h : L.length = 1) :
    argCountImpl (L ++ onesSentinels) = [Tok.num 0] := by
  unfold argCountImpl
  rw [List.getD_append_right _ _ _ _ (by omega)]
  rw [h]
  decide

lemma argCountImpl_ones_many {L : List (List Tok)}
    (h2 : 2 ≤ L.length) (h64 : L.length ≤ 64) :
    argCountImpl (L ++ onesSentinels) = [Tok.num 1] := by
  unfold argCountImpl
  rw [List.getD_append_right _ _ _ _ (by omega)]
  exact onesSentinels_getD (by omega)

lemma argCountImpl_countdown_one {L : List (List Tok)} {g : List Tok}
    (h : L.length = 1) :
    argCountImpl (L ++ countdown ++ [g]) = g := by
  unfold argCountImpl
  rw [List.append_assoc, List.getD_append_right _ _ _ _ (by omega), h]
  have h63 : (countdown ++ [g]).length = 64 := by simp [countdown_length]
  rw [List.getD_append_right _ _ _ _ (by rw [countdown_length])]
  rw [countdown_length]
  rfl

lemma argCountImpl_countdown_many {L : List (List Tok)} {g : List Tok}
    (h2 : 2 ≤ L.length) (h64 : L.length ≤ 64) :
    argCountImpl (L ++ countdown ++ [g]) = [Tok.num L.length] := by
  unfold argCountImpl
  rw [List.append_assoc, List.getD_append_right _ _ _ _ (by omega)]
  rw [List.getD_append _ _ _ _ (by rw [countdown_length]; omega)]
  rw [countdown_getD (by omega)]
  congr 2
  omega

/-! ### The comma presence test, characterized by the top-level comma count -/

lemma hasCommaOf_zero {X : List Tok} (h : topCommasAux X 0 = 0) :
    argCountImpl (splitTopLevel X ++ onesSentinels) = [Tok.num 0] :=
  argCountImpl_ones_one (by rw [splitTopLevel_length, h])

lemma hasCommaOf_pos {X : List Tok} (h1 : 1 ≤ topCommasAux X 0)
    (h2 : topCommasAux X 0 ≤ 63) :
    argCountImpl (splitTopLevel X ++ onesSentinels) = [Tok.num 1] :=
  argCountImpl_ones_many (by rw [splitTopLevel_length]; omega)
    (by rw [splitTopLevel_length]; omega)

lemma pwHasComma_def (env : Env) (ts : List Tok) :
    pwHasComma env ts = argCountImpl (splitTopLevel (expand env ts) ++ onesSentinels) :=
  rfl

/-! ### The bit-pattern lookup of _PW_HAS_NO_ARGS -/

lemma hasNoArgsImpl_eq (env : Env) (g1 g2 g3 g4 : List Tok) :
    hasNoArgsImpl env g1 g2 g3 g4 =
      if spellGroup g1 ++ spellGroup g2 ++ spellGroup g3 ++ spellGroup g4 = "0001"
      then [Tok.num 1] else [Tok.num 0] := by
  unfold hasNoArgsImpl pasteResults
  by_cases hc :
      spellGroup g1 ++ spellGroup g2 ++ spellGroup g3 ++ spellGroup g4 = "0001"
  · rw [if_pos hc, if_pos hc, pwHasComma_def, expand_plain env (by rfl)]
    exact hasCommaOf_pos (by decide) (by decide)
  · rw [if_neg hc, if_neg hc, pwHasComma_def,
      expand_plain env (by simp [Plain, plainTok])]
    exact hasCommaOf_zero (by simp [topCommasAux])

lemma hasNoArgsImpl_p1_one (env : Env) (g2 g3 g4 : List Tok) :
    hasNoArgsImpl env [Tok.num 1] g2 g3 g4 = [Tok.num 0] := by
  rw [hasNoArgsImpl_eq]
  have hs : spellGroup [Tok.num 1] = "1" := by decide
  rw [hs]
  rw [if_neg ?notreg]
  case notreg =>
    intro h
    have h2 := congrArg String.data h
    simp [String.data_append] at h2

/-! ### Probe values for the three input classes -/

lemma expand_nil (env : Env) : expand env [] = [] :=
  expandFuel_nil env _

lemma expand_single (env : Env) (t : Tok) : expand env [t] = [t] :=
  expandFuel_single env t (by unfold expFuel; omega)

lemma hasNoArgs_empty (env : Env) : PW_HAS_NO_ARGS env [] = [Tok.num 1] := by
  have p1 : probe1 env [] = [Tok.num 0] := by
    unfold probe1
    rw [pwHasComma_def, expand_nil]
    exact hasCommaOf_zero rfl
  have p2 : probe2 env [] = [Tok.num 0] := by
    unfold probe2
    rw [pwHasComma_def, expand_single]
    exact hasCommaOf_zero rfl
  have p3 : probe3 env [] = [Tok.num 0] := by
    unfold probe3
    rw [pwHasComma_def, List.nil_append, expand_plain env (by rfl)]
    exact hasCommaOf_zero rfl
  have p4 : probe4 env [] = [Tok.num 1] := by
    unfold probe4
    rw [pwHasComma_def, List.nil_append]
    have he : expand env [Tok.mcic, Tok.lp, Tok.rp] = [Tok.comma] := by
      unfold expand
      exact expandFuel_mcic_call env
        (show skipParens 0 [Tok.rp] = some [] from rfl) (by rfl)
        (by simp [expFuel])
    rw [he]
    exact hasCommaOf_pos (by decide) (by decide)
  unfold PW_HAS_NO_ARGS
  rw [expand_nil, p1, p2, p3, p4, hasNoArgsImpl_eq]
  decide

lemma probe_vals_lp (env : Env) {rest : List Tok}
    (hp : Plain (Tok.lp :: rest)) (hb : Balanced (Tok.lp :: rest))
    (h0 : topCommasAux (Tok.lp :: rest) 0 = 0) :
    probe1 env (Tok.lp :: rest) = [Tok.num 0] ∧
    probe2 env (Tok.lp :: rest) = [Tok.num 1] ∧
    probe3 env (Tok.lp :: rest) = [Tok.num 0] ∧
    probe4 env (Tok.lp :: rest) = [Tok.num 1] := by
  have hb' : scanDepth (Tok.lp :: rest) 0 = some 0 := hb
  have hscan : scanDepth rest 1 = some 0 := by simpa [scanDepth] using hb'
  obtain ⟨after, hskip, hafter⟩ := skipParens_exists (d := 0) hscan
  have hsub := skipParens_sublist hskip
  have hp_rest : Plain rest := (plain_cons.mp hp).2
  have hp_after : Plain after := by
    rw [plain_iff] at hp_rest ⊢
    exact fun t ht => hp_rest t (hsub.subset ht)
  have hlen : after.length ≤ rest.length := hsub.length_le
  have htc_after : topCommasAux after 0 = 0 := by
    have h1 : topCommasAux rest 1 = topCommasAux after 0 := skipParens_topCommas hskip
    have h2 : topCommasAux (Tok.lp :: rest) 0 = topCommasAux rest 1 := rfl
    omega
  refine ⟨?_, ?_, ?_, ?_⟩
  · unfold probe1
    rw [pwHasComma_def, expand_plain env hp]
    exact hasCommaOf_zero h0
  · unfold probe2
    rw [pwHasComma_def]
    have he : expand env (Tok.mcic :: Tok.lp :: rest) = Tok.comma :: after := by
      unfold expand
      exact expandFuel_mcic_call env hskip hp_after (by simp [expFuel]; omega)
    rw [he]
    have htc : topCommasAux (Tok.comma :: after) 0 = 1 := by
      simp [topCommasAux, htc_after]
    exact hasCommaOf_pos (by omega) (by omega)
  · unfold probe3
    rw [pwHasComma_def, expand_plain env (plain_append.mpr ⟨hp, by rfl⟩)]
    refine hasCommaOf_zero ?_
    rw [topCommasAux_append hb']
    have h0' : topCommasAux rest 1 = 0 := h0
    simp [topCommasAux, h0']
  · unfold probe4
    rw [pwHasComma_def]
    have hskip2 : skipParens 0 (rest ++ [Tok.lp, Tok.rp]) =
        some (after ++ [Tok.lp, Tok.rp]) := skipParens_append hskip _
    have he : expand env (Tok.mcic :: ((Tok.lp :: rest) ++ [Tok.lp, Tok.rp])) =
        Tok.comma :: (after ++ [Tok.lp, Tok.rp]) := by
      unfold expand
      exact expandFuel_mcic_call env hskip2
        (plain_append.mpr ⟨hp_after, by rfl⟩) (by simp [expFuel]; omega)
    rw [he]
    have htc2 : topCommasAux (after ++ [Tok.lp, Tok.rp]) 0 = 0 := by
      rw [topCommasAux_append hafter]
      simp [topCommasAux, htc_after]
    have htc : topCommasAux (Tok.comma :: (after ++ [Tok.lp, Tok.rp])) 0 = 1 := by
      simp [topCommasAux, htc2]
    exact hasCommaOf_pos (by omega) (by omega)

lemma hasNoArgs_single_nonlp (env : Env) {t : Tok} {rest : List Tok}
    (hp : Plain (t :: rest)) (hb : Balanced (t :: rest))
    (h0 : topCommasAux (t :: rest) 0 = 0) (ht : t ≠ Tok.lp) :
    PW_HAS_NO_ARGS env (t :: rest) = [Tok.num 0] := by
  have he : expand env (t :: rest) = t :: rest := expand_plain env hp
  have hb' : scanDepth (t :: rest) 0 = some 0 := hb
  have hmcic_tc : ∀ us : List Tok, topCommasAux (Tok.mcic :: us) 0 = topCommasAux us 0 :=
    fun us => rfl
  have p1 : probe1 env (t :: rest) = [Tok.num 0] := by
    unfold probe1
    rw [pwHasComma_def, he]
    exact hasCommaOf_zero h0
  have p2 : probe2 env (t :: rest) = [Tok.num 0] := by
    unfold probe2
    rw [pwHasComma_def]
    have e2 : expand env (Tok.mcic :: t :: rest) = Tok.mcic :: t :: rest := by
      unfold expand
      rw [expandFuel_mcic_nonlp env rest ht (by simp [expFuel])]
      rw [expandFuel_plain env hp (by simp [expFuel]; omega)]
    rw [e2]
    exact hasCommaOf_zero (by rw [hmcic_tc]; exact h0)
  have htc3 : topCommasAux ((t :: rest) ++ [Tok.lp, Tok.rp]) 0 = 0 := by
    rw [topCommasAux_append hb']
    simp [topCommasAux, h0]
  have p3 : probe3 env (t :: rest) = [Tok.num 0] := by
    unfold probe3
    rw [pwHasComma_def, expand_plain env (plain_append.mpr ⟨hp, by rfl⟩)]
    exact hasCommaOf_zero htc3
  have p4 : probe4 env (t :: rest) = [Tok.num 0] := by
    unfold probe4
    rw [pwHasComma_def]
    have e4 : expand env (Tok.mcic :: ((t :: rest) ++ [Tok.lp, Tok.rp])) =
        Tok.mcic :: ((t :: rest) ++ [Tok.lp, Tok.rp]) := by
      unfold expand
      rw [show (t :: rest) ++ [Tok.lp, Tok.rp] = t :: (rest ++ [Tok.lp, Tok.rp]) from rfl]
      rw [expandFuel_mcic_nonlp env (rest ++ [Tok.lp, Tok.rp]) ht (by simp [expFuel])]
      rw [expandFuel_plain env
        (by rw [show t :: (rest ++ [Tok.lp, Tok.rp]) = (t :: rest) ++ [Tok.lp, Tok.rp] from rfl]
            exact plain_append.mpr ⟨hp, by rfl⟩)
        (by simp [expFuel]; omega)]
    rw [e4]
    exact hasCommaOf_zero (by rw [hmcic_tc]; exact htc3)
  unfold PW_HAS_NO_ARGS
  rw [he, p1, p2, p3, p4, hasNoArgsImpl_eq]
  decide

/-! ### Main characterization of PW_HAS_ARGS and PW_ARG_COUNT on plain input -/

lemma master (env : Env) (ts : List Tok) (hp : Plain ts) (hb : Balanced ts)
    (hk : topCommasAux ts 0 + 1 ≤ 64) :
    PW_HAS_ARGS env ts = (if ts = [] then [Tok.num 0] else [Tok.num 1]) ∧
    PW_ARG_COUNT env ts = [Tok.num (if ts = [] then 0 else topCommasAux ts 0 + 1)] := by
  have he : expand env ts = ts := expand_plain env hp
  by_cases h0 : topCommasAux ts 0 = 0
  · cases ts with
    | nil =>
      have hna : PW_HAS_ARGS env [] = [Tok.num 0] := by
        unfold PW_HAS_ARGS
        rw [hasNoArgs_empty env]
        decide
      refine ⟨by simpa using hna, ?_⟩
      unfold PW_ARG_COUNT
      rw [expand_nil env]
      rw [argCountImpl_countdown_one (by rw [splitTopLevel_length]; rfl)]
      simpa using hna
    | cons t rest =>
      have hhna : PW_HAS_NO_ARGS env (t :: rest) = [Tok.num 0] := by
        cases t with
        | lp =>
          obtain ⟨q1, q2, q3, q4⟩ := probe_vals_lp env hp hb h0
          unfold PW_HAS_NO_ARGS
          rw [he, q1, q2, q3, q4, hasNoArgsImpl_eq]
          decide
        | ident s => exact hasNoArgs_single_nonlp env hp hb h0 (by simp)
        | num n => exact hasNoArgs_single_nonlp env hp hb h0 (by simp)
        | comma => simp [topCommasAux] at h0
        | rp =>
          have hb' : scanDepth (Tok.rp :: rest) 0 = some 0 := hb
          simp [scanDepth] at hb'
        | mcic =>
          have := plain_cons.mp hp
          simp [plainTok] at this
        | mac i =>
          have := plain_cons.mp hp
          simp [plainTok] at this
      have hha : PW_HAS_ARGS env (t :: rest) = [Tok.num 1] := by
        unfold PW_HAS_ARGS
        rw [hhna]
        decide
      refine ⟨by simp [hha], ?_⟩
      unfold PW_ARG_COUNT
      rw [he]
      rw [argCountImpl_countdown_one (by rw [splitTopLevel_length, h0])]
      simp [hha, h0]
  · have hts : ts ≠ [] := by
      intro h
      subst h
      simp [topCommasAux] at h0
    have hp1 : probe1 env ts = [Tok.num 1] := by
      unfold probe1
      rw [pwHasComma_def, he]
      exact hasCommaOf_pos (by omega) (by omega)
    have hhna : PW_HAS_NO_ARGS env ts = [Tok.num 0] := by
      unfold PW_HAS_NO_ARGS
      rw [he, hp1]
      exact hasNoArgsImpl_p1_one env _ _ _
    have hha : PW_HAS_ARGS env ts = [Tok.num 1] := by
      unfold PW_HAS_ARGS
      rw [hhna]
      decide
    refine ⟨by simp [hha, hts], ?_⟩
    unfold PW_ARG_COUNT
    rw [he]
    rw [argCountImpl_countdown_many (by rw [splitTopLevel_length]; omega)
      (by rw [splitTopLevel_length]; omega)]
    rw [splitTopLevel_length]
    simp [hts]

/-! ### The case of a function-like macro name passed as the single argument -/

lemma envOk_getD {env : Env} (hok : EnvOk env) (i : Nat) :
    Plain (List.getD env i []) ∧ (splitTopLevel (List.getD env i [])).length ≤ 64 := by
  by_cases h : i < env.length
  · have hmem : List.getD env i [] ∈ env := by
      rw [List.getD_eq_getElem _ _ h]
      exact List.getElem_mem _
    exact ⟨(hok _ hmem).1, (hok _ hmem).2⟩
  · rw [List.getD_eq_default _ _ (by omega)]
    exact ⟨by rfl, by decide⟩

lemma getD_length_le (env : Env) (i : Nat) :
    (List.getD env i []).length ≤ envTotal env := by
  by_cases h : i < env.length
  · rw [List.getD_eq_getElem _ _ h]
    unfold envTotal
    exact List.single_le_sum (by simp) _ (List.mem_map_of_mem _ (List.getElem_mem _))
  · rw [List.getD_eq_default _ _ (by omega)]
    simp

lemma mac_master (env : Env) (i : Nat) (hok : EnvOk env) :
    PW_HAS_ARGS env [Tok.mac i] = [Tok.num 1] ∧
    PW_ARG_COUNT env [Tok.mac i] = [Tok.num 1] ∧
    expand env [Tok.mac i] = [Tok.mac i] := by
  have hbp : Plain (List.getD env i []) := (envOk_getD hok i).1
  have hbs : (splitTopLevel (List.getD env i [])).length ≤ 64 := (envOk_getD hok i).2
  have hblen : (List.getD env i []).length ≤ envTotal env := getD_length_le env i
  have htc_le : topCommasAux (List.getD env i []) 0 ≤ 63 := by
    rw [splitTopLevel_length] at hbs
    omega
  have he : expand env [Tok.mac i] = [Tok.mac i] := expand_single env _
  have p1 : probe1 env [Tok.mac i] = [Tok.num 0] := by
    unfold probe1
    rw [pwHasComma_def, expand_single]
    exact hasCommaOf_zero rfl
  have p2 : probe2 env [Tok.mac i] = [Tok.num 0] := by
    unfold probe2
    rw [pwHasComma_def]
    have e2 : expand env [Tok.mcic, Tok.mac i] = [Tok.mcic, Tok.mac i] := by
      unfold expand
      rw [expandFuel_mcic_nonlp env [] (by simp) (by simp [expFuel])]
      rw [expandFuel_single env _ (by simp [expFuel])]
    rw [e2]
    exact hasCommaOf_zero rfl
  have e3 : expand env ([Tok.mac i] ++ [Tok.lp, Tok.rp]) = List.getD env i [] := by
    unfold expand
    rw [show [Tok.mac i] ++ [Tok.lp, Tok.rp] = Tok.mac i :: Tok.lp :: [Tok.rp] from rfl]
    rw [expandFuel_mac_call env i
      (show skipParens 0 [Tok.rp] = some [] from rfl) (by simp [expFuel])]
    rw [List.append_nil]
    exact expandFuel_plain env hbp
      (by simp only [expFuel, List.length_cons, List.length_nil]; omega)
  have e4 : expand env (Tok.mcic :: ([Tok.mac i] ++ [Tok.lp, Tok.rp])) =
      Tok.mcic :: List.getD env i [] := by
    unfold expand
    rw [show Tok.mcic :: ([Tok.mac i] ++ [Tok.lp, Tok.rp]) =
      Tok.mcic :: Tok.mac i :: Tok.lp :: [Tok.rp] from rfl]
    rw [expandFuel_mcic_nonlp env [Tok.lp, Tok.rp] (by simp) (by simp [expFuel])]
    rw [expandFuel_mac_call env i
      (show skipParens 0 [Tok.rp] = some [] from rfl) (by simp [expFuel])]
    rw [List.append_nil]
    congr 1
    exact expandFuel_plain env hbp
      (by simp only [expFuel, List.length_cons, List.length_nil]; omega)
  have p34 : (probe3 env [Tok.mac i] = [Tok.num 0] ∧ probe4 env [Tok.mac i] = [Tok.num 0]) ∨
      (probe3 env [Tok.mac i] = [Tok.num 1] ∧ probe4 env [Tok.mac i] = [Tok.num 1]) := by
    by_cases h : topCommasAux (List.getD env i []) 0 = 0
    · left
      constructor
      · unfold probe3
        rw [pwHasComma_def, e3]
        exact hasCommaOf_zero h
      · unfold probe4
        rw [pwHasComma_def, e4]
        exact hasCommaOf_zero h
    · right
      constructor
      · unfold probe3
        rw [pwHasComma_def, e3]
        exact hasCommaOf_pos (by omega) (by omega)
      · unfold probe4
        rw [pwHasComma_def, e4]
        refine hasCommaOf_pos ?_ ?_
        · show 1 ≤ topCommasAux (List.getD env i []) 0
          omega
        · show topCommasAux (List.getD env i []) 0 ≤ 63
          omega
  have hhna : PW_HAS_NO_ARGS env [Tok.mac i] = [Tok.num 0] := by
    unfold PW_HAS_NO_ARGS
    rw [he]
    rcases p34 with ⟨q3, q4⟩ | ⟨q3, q4⟩ <;>
      rw [p1, p2, q3, q4, hasNoArgsImpl_eq] <;> decide
  have hha : PW_HAS_ARGS env [Tok.mac i] = [Tok.num 1] := by
    unfold PW_HAS_ARGS
    rw [hhna]
    decide
  refine ⟨hha, ?_, he⟩
  unfold PW_ARG_COUNT
  rw [he]
  rw [argCountImpl_countdown_one (by rw [splitTopLevel_length]; rfl)]
  exact hha

/-! ### Value of PW_COMMA_ARGS on plain input -/

lemma commaArgs_val (env : Env) (ts : List Tok) (hp : Plain ts) (hb : Balanced ts)
    (hk : topCommasAux ts 0 + 1 ≤ 64) :
    PW_COMMA_ARGS env ts = if ts = [] then [] else Tok.comma :: ts := by
  have he : expand env ts = ts := expand_plain env hp
  have hha := (master env ts hp hb hk).1
  unfold PW_COMMA_ARGS
  rw [he, hha]
  by_cases hts : ts = []
  · rw [if_pos hts, if_pos hts, hts]
    decide
  · rw [if_neg hts, if_neg hts]
    unfold commaArgsSel
    rw [if_neg (by decide), if_pos (by decide)]

lemma pasteResults_not_registered {g1 g2 g3 g4 : List Tok}
    (h : spellGroup g1 ++ spellGroup g2 ++ spellGroup g3 ++ spellGroup g4 ≠ "0001") :
    pasteResults g1 g2 g3 g4 =
      [Tok.ident ("_PW_HAS_COMMA_CASE_" ++
        (spellGroup g1 ++ spellGroup g2 ++ spellGroup g3 ++ spellGroup g4))] := by
  unfold pasteResults
  rw [if_neg h]

/-! ### The claims -/

/-- C1: for every argument list of 0 to 64 top-level token groups,
PW_ARG_COUNT returns the integer literal equal to the number of arguments:
N top-level commas give count N + 1, zero commas with non-empty content
give 1, and zero commas with empty content give 0. -/
theorem pw_arg_count_spec (env : Env) (ts : List Tok) (hp : Plain ts)
    (hb : Balanced ts) (hk : topCommasAux ts 0 + 1 ≤ 64) :
    PW_ARG_COUNT env ts = [Tok.num (if ts = [] then 0 else topCommasAux ts 0 + 1)] :=
  (master env ts hp hb hk).2

/-- Witness for C1 at the concrete input `a, b`: one top-level comma, so
the count is 2. -/
theorem pw_arg_count_spec_witness :
    Plain [Tok.ident "a", Tok.comma, Tok.ident "b"] ∧
    Balanced [Tok.ident "a", Tok.comma, Tok.ident "b"] ∧
    topCommasAux [Tok.ident "a", Tok.comma, Tok.ident "b"] 0 + 1 ≤ 64 ∧
    PW_ARG_COUNT [] [Tok.ident "a", Tok.comma, Tok.ident "b"] = [Tok.num 2] :=
  ⟨rfl, rfl, by decide,
    (pw_arg_count_spec [] [Tok.ident "a", Tok.comma, Tok.ident "b"]
      rfl rfl (by decide)).trans (by decide)⟩

/-- C2: PW_HAS_NO_ARGS classifies the input as empty exactly when the
4-tuple of comma-probe results equals (0, 0, 0, 1); the four bits are
pasted into one token, only the 0001 case is registered to produce the
diagnostic comma, and its presence is re-tested with the comma test. -/
theorem pw_has_no_args_iff_0001 (env : Env) (ts : List Tok)
    (h1 : probe1 env (expand env ts) = [Tok.num 0] ∨
      probe1 env (expand env ts) = [Tok.num 1])
    (h2 : probe2 env (expand env ts) = [Tok.num 0] ∨
      probe2 env (expand env ts) = [Tok.num 1])
    (h3 : probe3 env (expand env ts) = [Tok.num 0] ∨
      probe3 env (expand env ts) = [Tok.num 1])
    (h4 : probe4 env (expand env ts) = [Tok.num 0] ∨
      probe4 env (expand env ts) = [Tok.num 1]) :
    (PW_HAS_NO_ARGS env ts = [Tok.num 1] ↔
      (probe1 env (expand env ts), probe2 env (expand env ts),
        probe3 env (expand env ts), probe4 env (expand env ts)) =
      ([Tok.num 0], [Tok.num 0], [Tok.num 0], [Tok.num 1])) := by
  unfold PW_HAS_NO_ARGS
  rcases h1 with h1 | h1 <;> rcases h2 with h2 | h2 <;>
    rcases h3 with h3 | h3 <;> rcases h4 with h4 | h4 <;>
    rw [h1, h2, h3, h4, hasNoArgsImpl_eq] <;> decide

/-- Witness for C2 at the empty input: the probes evaluate to 0, 0, 0, 1
and PW_HAS_NO_ARGS returns 1. -/
theorem pw_has_no_args_iff_0001_witness :
    (probe1 [] (expand [] []) = [Tok.num 0] ∨ probe1 [] (expand [] []) = [Tok.num 1]) ∧
    (probe2 [] (expand [] []) = [Tok.num 0] ∨ probe2 [] (expand [] []) = [Tok.num 1]) ∧
    (probe3 [] (expand [] []) = [Tok.num 0] ∨ probe3 [] (expand [] []) = [Tok.num 1]) ∧
    (probe4 [] (expand [] []) = [Tok.num 0] ∨ probe4 [] (expand [] []) = [Tok.num 1]) ∧
    (PW_HAS_NO_ARGS [] [] = [Tok.num 1] ↔
      (probe1 [] (expand [] []), probe2 [] (expand [] []),
        probe3 [] (expand [] []), probe4 [] (expand [] [])) =
      ([Tok.num 0], [Tok.num 0], [Tok.num 0], [Tok.num 1])) :=
  ⟨by decide, by decide, by decide, by decide,
    pw_has_no_args_iff_0001 [] [] (by decide) (by decide) (by decide) (by decide)⟩

/-- C3: PW_HAS_ARGS returns the literal 0 when called with no arguments
and the literal 1 when called with one or more arguments, and its output
is always exactly the literal 0 or the literal 1. -/
theorem pw_has_args_spec (env : Env) (ts : List Tok) (hp : Plain ts)
    (hb : Balanced ts) (hk : topCommasAux ts 0 + 1 ≤ 64) :
    PW_HAS_ARGS env ts = (if ts = [] then [Tok.num 0] else [Tok.num 1]) ∧
    (PW_HAS_ARGS env ts = [Tok.num 0] ∨ PW_HAS_ARGS env ts = [Tok.num 1]) := by
  have h := (master env ts hp hb hk).1
  refine ⟨h, ?_⟩
  rw [h]
  by_cases hts : ts = [] <;> simp [hts]

/-- Witness for C3 at the concrete input `a`: one argument, so PW_HAS_ARGS
returns the literal 1. -/
theorem pw_has_args_spec_witness :
    Plain [Tok.ident "a"] ∧ Balanced [Tok.ident "a"] ∧
    topCommasAux [Tok.ident "a"] 0 + 1 ≤ 64 ∧
    (PW_HAS_ARGS [] [Tok.ident "a"] =
        (if ([Tok.ident "a"] : List Tok) = [] then [Tok.num 0] else [Tok.num 1]) ∧
      (PW_HAS_ARGS [] [Tok.ident "a"] = [Tok.num 0] ∨
        PW_HAS_ARGS [] [Tok.ident "a"] = [Tok.num 1])) :=
  ⟨rfl, rfl, by decide, pw_has_args_spec [] [Tok.ident "a"] rfl rfl (by decide)⟩

/-- C4: PW_COMMA_ARGS expands to nothing when the variadic tail is empty
and to the separator followed by the tail verbatim otherwise, with no
stray leading separator in either case. -/
theorem pw_comma_args_spec (env : Env) (ts : List Tok) (hp : Plain ts)
    (hb : Balanced ts) (hk : topCommasAux ts 0 + 1 ≤ 64) :
    PW_COMMA_ARGS env ts = if ts = [] then [] else Tok.comma :: ts :=
  commaArgs_val env ts hp hb hk

/-- Witness for C4 at the concrete input `a, b`: the expansion is the
separator followed by the verbatim tail. -/
theorem pw_comma_args_spec_witness :
    Plain [Tok.ident "a", Tok.comma, Tok.ident "b"] ∧
    Balanced [Tok.ident "a", Tok.comma, Tok.ident "b"] ∧
    topCommasAux [Tok.ident "a", Tok.comma, Tok.ident "b"] 0 + 1 ≤ 64 ∧
    PW_COMMA_ARGS [] [Tok.ident "a", Tok.comma, Tok.ident "b"] =
      [Tok.comma, Tok.ident "a", Tok.comma, Tok.ident "b"] :=
  ⟨rfl, rfl, by decide,
    (pw_comma_args_spec [] [Tok.ident "a", Tok.comma, Tok.ident "b"]
      rfl rfl (by decide)).trans (by decide)⟩

/-- C5: the comma presence test returns 1 when the sequence contains a
top-level comma and 0 otherwise, for sequences of at most 64 top-level
items. -/
theorem pw_has_comma_spec (env : Env) (ts : List Tok) (hp : Plain ts)
    (hk : topCommasAux ts 0 + 1 ≤ 64) :
    pwHasComma env ts =
      if topCommasAux ts 0 = 0 then [Tok.num 0] else [Tok.num 1] := by
  rw [pwHasComma_def, expand_plain env hp]
  by_cases h : topCommasAux ts 0 = 0
  · rw [if_pos h]
    exact hasCommaOf_zero h
  · rw [if_neg h]
    exact hasCommaOf_pos (by omega) (by omega)

/-- Witness for C5 at the concrete input `a, b`: the sequence has a
top-level comma, so the test returns 1. -/
theorem pw_has_comma_spec_witness :
    Plain [Tok.ident "a", Tok.comma, Tok.ident "b"] ∧
    topCommasAux [Tok.ident "a", Tok.comma, Tok.ident "b"] 0 + 1 ≤ 64 ∧
    pwHasComma [] [Tok.ident "a", Tok.comma, Tok.ident "b"] = [Tok.num 1] :=
  ⟨rfl, by decide,
    (pw_has_comma_spec [] [Tok.ident "a", Tok.comma, Tok.ident "b"]
      rfl (by decide)).trans (by decide)⟩

/-- C6: a single argument that is one parenthesized group counts as 1: the
commas inside the inner parentheses are not top-level separators, and the
marker probe P2 classifies the parenthesized group as non-empty. -/
theorem pw_arg_count_nested_parens (env : Env) (rest : List Tok)
    (hp : Plain (Tok.lp :: rest)) (hb : Balanced (Tok.lp :: rest))
    (h0 : topCommasAux (Tok.lp :: rest) 0 = 0) :
    PW_ARG_COUNT env (Tok.lp :: rest) = [Tok.num 1] ∧
    probe2 env (expand env (Tok.lp :: rest)) = [Tok.num 1] := by
  constructor
  · have h := (master env (Tok.lp :: rest) hp hb (by omega)).2
    simpa [h0] using h
  · rw [expand_plain env hp]
    exact (probe_vals_lp env hp hb h0).2.1

/-- Witness for C6 at the concrete input `(a, b)`: a parenthesized group
containing a comma counts as a single argument. -/
theorem pw_arg_count_nested_parens_witness :
    Plain (Tok.lp :: [Tok.ident "a", Tok.comma, Tok.ident "b", Tok.rp]) ∧
    Balanced (Tok.lp :: [Tok.ident "a", Tok.comma, Tok.ident "b", Tok.rp]) ∧
    topCommasAux (Tok.lp :: [Tok.ident "a", Tok.comma, Tok.ident "b", Tok.rp]) 0 = 0 ∧
    (PW_ARG_COUNT [] (Tok.lp :: [Tok.ident "a", Tok.comma, Tok.ident "b", Tok.rp]) =
        [Tok.num 1] ∧
      probe2 [] (expand [] (Tok.lp :: [Tok.ident "a", Tok.comma, Tok.ident "b", Tok.rp])) =
        [Tok.num 1]) :=
  ⟨rfl, rfl, by decide,
    pw_arg_count_nested_parens [] [Tok.ident "a", Tok.comma, Tok.ident "b", Tok.rp]
      rfl rfl (by decide)⟩

/-- C7: the unexpanded name of a function-like macro passed as the single
argument counts as exactly 1, and the expansion pass does not invoke the
macro (the name has no parenthesis after it). -/
theorem pw_arg_count_macro_name (env : Env) (i : Nat) (hok : EnvOk env) :
    PW_ARG_COUNT env [Tok.mac i] = [Tok.num 1] ∧
    expand env [Tok.mac i] = [Tok.mac i] :=
  ⟨(mac_master env i hok).2.1, (mac_master env i hok).2.2⟩

/-- Witness for C7 with a user macro whose invocation produces a comma:
its bare name still counts as 1 and is not invoked. -/
theorem pw_arg_count_macro_name_witness :
    EnvOk [[Tok.comma]] ∧
    (PW_ARG_COUNT [[Tok.comma]] [Tok.mac 0] = [Tok.num 1] ∧
      expand [[Tok.comma]] [Tok.mac 0] = [Tok.mac 0]) :=
  ⟨by unfold EnvOk; decide,
    pw_arg_count_macro_name [[Tok.comma]] 0 (by unfold EnvOk; decide)⟩

/-- C8: the expansion of each operation is a deterministic function of the
input in this embedding, and the produced output is a fixed point of the
expansion pass: re-expanding the result of PW_ARG_COUNT, PW_HAS_ARGS or
PW_COMMA_ARGS reproduces it byte for byte, so repeated passes by the
toolchain terminate with identical output. -/
theorem pw_expansion_deterministic (env : Env) (ts : List Tok) (hp : Plain ts)
    (hb : Balanced ts) (hk : topCommasAux ts 0 + 1 ≤ 64) :
    expand env (PW_ARG_COUNT env ts) = PW_ARG_COUNT env ts ∧
    expand env (PW_HAS_ARGS env ts) = PW_HAS_ARGS env ts ∧
    expand env (PW_COMMA_ARGS env ts) = PW_COMMA_ARGS env ts := by
  obtain ⟨h1, h2⟩ := master env ts hp hb hk
  have h3 := commaArgs_val env ts hp hb hk
  refine ⟨?_, ?_, ?_⟩
  · rw [h2]
    exact expand_plain env (by rfl)
  · rw [h1]
    by_cases hts : ts = []
    · rw [if_pos hts]
      exact expand_plain env (by rfl)
    · rw [if_neg hts]
      exact expand_plain env (by rfl)
  · rw [h3]
    by_cases hts : ts = []
    · rw [if_pos hts]
      exact expand_nil env
    · rw [if_neg hts]
      exact expand_plain env (plain_cons.mpr ⟨rfl, hp⟩)

/-- Witness for C8 at the concrete input `a, b`. -/
theorem pw_expansion_deterministic_witness :
    Plain [Tok.ident "a", Tok.comma, Tok.ident "b"] ∧
    Balanced [Tok.ident "a", Tok.comma, Tok.ident "b"] ∧
    topCommasAux [Tok.ident "a", Tok.comma, Tok.ident "b"] 0 + 1 ≤ 64 ∧
    (expand [] (PW_ARG_COUNT [] [Tok.ident "a", Tok.comma, Tok.ident "b"]) =
        PW_ARG_COUNT [] [Tok.ident "a", Tok.comma, Tok.ident "b"] ∧
      expand [] (PW_HAS_ARGS [] [Tok.ident "a", Tok.comma, Tok.ident "b"]) =
        PW_HAS_ARGS [] [Tok.ident "a", Tok.comma, Tok.ident "b"] ∧
      expand [] (PW_COMMA_ARGS [] [Tok.ident "a", Tok.comma, Tok.ident "b"]) =
        PW_COMMA_ARGS [] [Tok.ident "a", Tok.comma, Tok.ident "b"]) :=
  ⟨rfl, rfl, by decide,
    pw_expansion_deterministic [] [Tok.ident "a", Tok.comma, Tok.ident "b"]
      rfl rfl (by decide)⟩

/-- C9: PW_ARG_COUNT returns 0 exactly when PW_HAS_ARGS returns 0: the
final sentinel slot of the counter is the PW_HAS_ARGS result, so the two
operations agree about emptiness. -/
theorem pw_count_zero_iff_no_args (env : Env) (ts : List Tok) (hp : Plain ts)
    (hb : Balanced ts) (hk : topCommasAux ts 0 + 1 ≤ 64) :
    (PW_ARG_COUNT env ts = [Tok.num 0] ↔ PW_HAS_ARGS env ts = [Tok.num 0]) := by
  obtain ⟨h1, h2⟩ := master env ts hp hb hk
  by_cases hts : ts = []
  · rw [h1, h2, if_pos hts, if_pos hts]
  · rw [h1, h2, if_neg hts, if_neg hts]
    constructor <;> intro h <;> simp at h

/-- Witness for C9 at the empty input: both operations return 0. -/
theorem pw_count_zero_iff_no_args_witness :
    Plain ([] : List Tok) ∧ Balanced ([] : List Tok) ∧
    topCommasAux ([] : List Tok) 0 + 1 ≤ 64 ∧
    (PW_ARG_COUNT [] ([] : List Tok) = [Tok.num 0] ↔
      PW_HAS_ARGS [] ([] : List Tok) = [Tok.num 0]) :=
  ⟨rfl, rfl, by decide, pw_count_zero_iff_no_args [] [] rfl rfl (by decide)⟩

/-- C10: for every probe bit pattern other than 0001, the pasted token is
a single comma-free identifier, and PW_HAS_NO_ARGS always expands to
exactly the literal 0 or the literal 1, which satisfies the precondition
of the negation collaborator. -/
theorem pw_paste_results_safe (env : Env) (ts : List Tok) (g1 g2 g3 g4 : List Tok)
    (h1 : g1 = [Tok.num 0] ∨ g1 = [Tok.num 1])
    (h2 : g2 = [Tok.num 0] ∨ g2 = [Tok.num 1])
    (h3 : g3 = [Tok.num 0] ∨ g3 = [Tok.num 1])
    (h4 : g4 = [Tok.num 0] ∨ g4 = [Tok.num 1])
    (hne : ¬(g1 = [Tok.num 0] ∧ g2 = [Tok.num 0] ∧ g3 = [Tok.num 0] ∧ g4 = [Tok.num 1])) :
    (∃ s, pasteResults g1 g2 g3 g4 = [Tok.ident s]) ∧
    (PW_HAS_NO_ARGS env ts = [Tok.num 0] ∨ PW_HAS_NO_ARGS env ts = [Tok.num 1]) := by
  constructor
  · have hs : spellGroup g1 ++ spellGroup g2 ++ spellGroup g3 ++ spellGroup g4 ≠ "0001" := by
      rcases h1 with rfl | rfl <;> rcases h2 with rfl | rfl <;>
        rcases h3 with rfl | rfl <;> rcases h4 with rfl | rfl <;>
        first
          | decide
          | exact absurd ⟨rfl, rfl, rfl, rfl⟩ hne
    exact ⟨_, pasteResults_not_registered hs⟩
  · unfold PW_HAS_NO_ARGS
    rw [hasNoArgsImpl_eq]
    split <;> simp

/-- Witness for C10 at the all-zero bit pattern and a concrete input. -/
theorem pw_paste_results_safe_witness :
    (([Tok.num 0] : List Tok) = [Tok.num 0] ∨ ([Tok.num 0] : List Tok) = [Tok.num 1]) ∧
    (¬(([Tok.num 0] : List Tok) = [Tok.num 0] ∧ ([Tok.num 0] : List Tok) = [Tok.num 0] ∧
      ([Tok.num 0] : List Tok) = [Tok.num 0] ∧ ([Tok.num 0] : List Tok) = [Tok.num 1])) ∧
    ((∃ s, pasteResults [Tok.num 0] [Tok.num 0] [Tok.num 0] [Tok.num 0] = [Tok.ident s]) ∧
      (PW_HAS_NO_ARGS [] [Tok.ident "x"] = [Tok.num 0] ∨
        PW_HAS_NO_ARGS [] [Tok.ident "x"] = [Tok.num 1])) :=
  ⟨by decide, by decide,
    pw_paste_results_safe [] [Tok.ident "x"] [Tok.num 0] [Tok.num 0] [Tok.num 0] [Tok.num 0]
      (by decide) (by decide) (by decide) (by decide) (by decide)⟩

end MacroArgCount
